import Mathlib

/-!
Verification of the typedbuffer order-preserving encoding library.

This file gives a shallow embedding of `typedbuffer.go` into Lean, and
settles the specification claims against it.  Bytes are modelled as `Nat`
(with `% 256` wherever the Go code truncates to `byte`), Go `int64` as
`Int` with explicit two's-complement wrapping, and Go `uint64` as `Nat`
with explicit `% 2^64`.  Buffers are `List Nat` whose elements are below
256 whenever they come from a real byte slice.
-/

set_option maxRecDepth 16000

namespace Typedbuffer

/-! ## Constants (from the `const` block of typedbuffer.go) -/

/-- `BB_POSITIVE`: all positive values have this bit set. -/
def BB_POSITIVE : Nat := 0x80

/-- `BB_TYPE_MASK`: type + cardinality mask. -/
def BB_TYPE_MASK : Nat := 0xF0

/-- `BB_NIL_FIRST`. -/
def BB_NIL_FIRST : Nat := 0x00

/-- `BB_NIL_LAST`. -/
def BB_NIL_LAST : Nat := 0xFF

/-- `BB_BOOLEAN_FALSE = 0x0E`. -/
def BB_BOOLEAN_FALSE : Nat := 0x0E

/-- `BB_BOOLEAN_TRUE = 0x0F`. -/
def BB_BOOLEAN_TRUE : Nat := 0x0F

/-- `BB_BYTES = 0x10`. -/
def BB_BYTES : Nat := 0x10

/-- `BB_BYTES_LEN_1 = 0x4D`. -/
def BB_BYTES_LEN_1 : Nat := 0x4D

/-- `BB_BYTES_LEN_2 = 0x4E`. -/
def BB_BYTES_LEN_2 : Nat := 0x4E

/-- `BB_BYTES_LEN_4 = 0x4E`.  Note: the Go source sets this constant to
`0x4E`, the same value as `BB_BYTES_LEN_2`, although the package doc
comment describes the 4-length-byte band as tag `0x4F`. -/
def BB_BYTES_LEN_4 : Nat := 0x4E

/-- `BB_INT = 0x60`; `BB_INT_NEGATIVE_VALUE = BB_INT | BB_NEGATIVE = 0x60`. -/
def BB_INT_NEGATIVE_VALUE : Nat := 0x60

/-- `BB_INT_POSITIVE_VALUE = BB_INT | BB_POSITIVE | 0x08 = 0xE8`. -/
def BB_INT_POSITIVE_VALUE : Nat := 0xE8

/-- `BB_SMALL_POSITIVE = BB_INT | BB_POSITIVE = 0xE0`. -/
def BB_SMALL_POSITIVE : Nat := 0xE0

/-- `BB_SMALL_NEGATIVE = BB_INT | BB_NEGATIVE | 0x08 = 0x68`. -/
def BB_SMALL_NEGATIVE : Nat := 0x68

/-- `BB_INT_MASK = BB_INT_POSITIVE_VALUE = 0xE8`. -/
def BB_INT_MASK : Nat := 0xE8

/-- `SMALL_NEG_MASK = ^SMALL_INT_MASK = ^7 = -8` (untyped Go constant,
used at type `int64`). -/
def SMALL_NEG_MASK : Int := -8

/-- `BB_UINT = 0x80`. -/
def BB_UINT : Nat := 0x80

/-- `BB_UINT_VAR = 0x90`. -/
def BB_UINT_VAR : Nat := 0x90

/-- `BB_UINT_MASK = 0xE0`. -/
def BB_UINT_MASK : Nat := 0xE0

/-- `MIN_SMALL_UINT = BB_UINT = 0x80`, `MAX_SMALL_UINT = BB_UINT + 16 = 0x90`. -/
def MAX_SMALL_UINT : Nat := 0x90

/-! ## Logical values

The Go API passes tuple elements as `interface{}`.  The supported scalar
shapes are absence (`nil`), `bool`, signed integers (`int`/`int64`,
identical encoding), `uint64`, and byte strings (`[]byte`/`string`,
identical encoding).  The `[]uint64` case of `EncodeNils` only flattens a
list of `uint64` values and is not a scalar, so it is not modelled. -/

/-- A supported scalar value. -/
inductive Value where
  | absent : Value
  | bool (b : Bool) : Value
  | int (i : Int) : Value
  | uint (u : Nat) : Value
  | bytes (bb : List Nat) : Value
deriving DecidableEq

/-- Decode errors: `EmptyBufferError` and `CorruptedBufferError` from the
Go source. -/
inductive TBError where
  | emptyBuffer : TBError
  | corruptedBuffer : TBError
deriving DecidableEq

/-- Result of an encoding call that can hit the oversize case.
`tooLong` models the Go statement `panic("slice too long")` in
`EncodeBytes`: the Go function traps there instead of returning. -/
inductive EncResult where
  | ok (b : List Nat) : EncResult
  | tooLong : EncResult
deriving DecidableEq

/-! ## Encoders -/

/-- `EncodeBool`: returns the `True`/`False` one-byte buffers. -/
def EncodeBool (b : Bool) : List Nat :=
  if b then [BB_BOOLEAN_TRUE] else [BB_BOOLEAN_FALSE]

/-- `EncodeNil`: returns `NilFirst` or `NilLast`. -/
def EncodeNil (first : Bool) : List Nat :=
  if first then [BB_NIL_FIRST] else [BB_NIL_LAST]

/-- The byte-scanning loop of `compactInt64`'s positive branch (and of
`compactUint64`): `bits` runs 56, 48, ..., 8 and the loop breaks at the
first `bits` with `v >> bits != 0`.  Here `k` is `bits/8`, so the call
`posLoopBytes v 7` performs exactly that scan and returns `bits/8`. -/
def posLoopBytes (v : Nat) : Nat → Nat
  | 0 => 0
  | k + 1 => if v >>> (8 * (k + 1)) ≠ 0 then k + 1 else posLoopBytes v k

/-- The byte-scanning loop of `compactInt64`'s negative branch: breaks at
the first `bits` (from 56 down) with `(v >> bits) & 0xff != 0xff`.
`k` is `bits/8`. -/
def negLoopBytes (v : Nat) : Nat → Nat
  | 0 => 0
  | k + 1 =>
    if (v >>> (8 * (k + 1))) &&& 0xFF ≠ 0xFF then k + 1 else negLoopBytes v k

/-- The payload-emitting loop of `compactInt64`/`compactUint64`:
`for ; bits >= 0; bits -= 8 { bb = append(bb, byte(v>>bits)) }`,
starting from `bits = 8*m`.  Emits `m+1` big-endian bytes. -/
def bytesDown (v : Nat) : Nat → List Nat
  | 0 => [v % 256]
  | m + 1 => ((v >>> (8 * (m + 1))) % 256) :: bytesDown v m

/-- `compactInt64(v uint64, typ byte)`: tag byte then minimal big-endian
payload.  The negative branch is taken when
`(typ & BB_TYPE_MASK) == BB_INT_NEGATIVE_VALUE`. -/
def compactInt64 (v : Nat) (typ : Nat) : List Nat :=
  if typ &&& BB_TYPE_MASK = BB_INT_NEGATIVE_VALUE then
    ((typ + (7 - negLoopBytes v 7)) % 256) :: bytesDown v (negLoopBytes v 7)
  else
    ((typ + posLoopBytes v 7) % 256) :: bytesDown v (posLoopBytes v 7)

/-- `compactUint64(u uint64)`: tag `BB_UINT_VAR + bits/8 + 1` then the
minimal big-endian payload (same scan as the positive `compactInt64`). -/
def compactUint64 (u : Nat) : List Nat :=
  ((BB_UINT_VAR + posLoopBytes u 7 + 1) % 256) :: bytesDown u (posLoopBytes u 7)

/-- Go's `uint64(i)` conversion: the two's-complement bit pattern of the
signed 64-bit integer `i`, as a natural number. -/
def toUInt64 (i : Int) : Nat := (i % 18446744073709551616).toNat

/-- `EncodeInt64`: small literals for `-8..7`, otherwise `compactInt64`
with the negative (`0x60`) or positive (`0xE8`) type byte.  Go's
`byte(i & SMALL_INT_MASK)` is `(i % 8).toNat` (Euclidean remainder). -/
def EncodeInt64 (i : Int) : List Nat :=
  if i < -8 then compactInt64 (toUInt64 i) BB_INT_NEGATIVE_VALUE
  else if 7 < i then compactInt64 (toUInt64 i) BB_INT_POSITIVE_VALUE
  else if 0 ≤ i then [BB_SMALL_POSITIVE + (i % 8).toNat]
  else [BB_SMALL_NEGATIVE + (i % 8).toNat]

/-- `EncodeUint64`: small literal tag `BB_UINT + u` for `u <= 16`,
otherwise `compactUint64`. -/
def EncodeUint64 (u : Nat) : List Nat :=
  if u ≤ 16 then [BB_UINT + u] else compactUint64 u

/-- `EncodeBytes`: banded length encoding.  The direct band computes its
tag with a bitwise OR, `BB_BYTES | byte(l)`, exactly as the Go source
does.  The 2- and 4-length-byte bands both start with tag `0x4E`
(`BB_BYTES_LEN_2` and `BB_BYTES_LEN_4` have the same value in the
source).  The final `tooLong` models `panic("slice too long")`. -/
def EncodeBytes (bb : List Nat) : EncResult :=
  if bb.length ≤ 60 then
    .ok ((BB_BYTES ||| bb.length % 256) :: bb)
  else if bb.length ≤ 61 + 0xFF then
    .ok (BB_BYTES_LEN_1 :: (bb.length - 61) % 256 :: bb)
  else if bb.length ≤ 317 + 0xFFFF then
    .ok (BB_BYTES_LEN_2 :: ((bb.length - 317) >>> 8) % 256 ::
          (bb.length - 317) % 256 :: bb)
  else if bb.length ≤ 65851 + 0xFFFFFFFF then
    .ok (BB_BYTES_LEN_4 :: ((bb.length - 65851) >>> 24) % 256 ::
          ((bb.length - 65851) >>> 16) % 256 ::
          ((bb.length - 65851) >>> 8) % 256 :: (bb.length - 65851) % 256 :: bb)
  else .tooLong

/-- `EncodeNils(nilFirst, values...)`: concatenates the per-value
encodings in order.  An oversize byte string propagates the
`EncodeBytes` panic. -/
def EncodeNils (nilFirst : Bool) (values : List Value) : EncResult :=
  match values with
  | [] => .ok []
  | v :: vs =>
    let hd : EncResult :=
      match v with
      | .absent => .ok (EncodeNil nilFirst)
      | .bool b => .ok (EncodeBool b)
      | .int i => .ok (EncodeInt64 i)
      | .uint u => .ok (EncodeUint64 u)
      | .bytes bb => EncodeBytes bb
    match hd with
    | .tooLong => .tooLong
    | .ok h =>
      match EncodeNils nilFirst vs with
      | .tooLong => .tooLong
      | .ok t => .ok (h ++ t)

/-- `Encode(values...) = EncodeNils(true, values...)`. -/
def Encode (values : List Value) : EncResult := EncodeNils true values

/-! ## Decoders -/

/-- Two's-complement wrap of an integer into the `int64` range
`[-2^63, 2^63)`, modelling Go `int64` overflow (Go shifts wrap). -/
def wrap64 (x : Int) : Int :=
  (x + 9223372036854775808) % 18446744073709551616 - 9223372036854775808

/-- `uncompactInt64(bb, positive)`: seeds the accumulator with `0`
(positive) or `-1` (negative) and folds `l = (l << 8) | int64(b)` over
the payload, with `int64` wrapping on the shift.  The Go shift is
multiplication by 256 with two's-complement wrap, and the bitwise OR
with a byte equals addition because the wrapped `l << 8` has a zero low
byte; both are written that way here so that the function evaluates. -/
def uncompactInt64 (bb : List Nat) (positive : Bool) : Int :=
  bb.foldl (fun l b => wrap64 (l * 256) + Int.ofNat (b % 256))
    (if positive then 0 else -1)

/-- `uncompactUint64(bb)`: folds `l = (l << 8) | uint64(b)` over the
payload with `uint64` wrapping. -/
def uncompactUint64 (bb : List Nat) : Nat :=
  bb.foldl (fun l b => ((l <<< 8) ||| b) % 18446744073709551616) 0

/-- The `switch` body of `Decode` for a non-empty buffer with tag byte
`k` and tail `next`.  The cases appear in the same order as the Go
`switch`.  In the small-negative case Go computes
`int64(k&SMALL_INT_MASK) | SMALL_NEG_MASK`; since `SMALL_NEG_MASK = -8`
has its low three bits clear and `k&7 < 8`, that bitwise OR equals the
addition written here. -/
def decodeBody (k : Nat) (next : List Nat) : Except TBError (Value × List Nat) :=
    if k = BB_NIL_FIRST ∨ k = BB_NIL_LAST then .ok (.absent, next)
    else if k = BB_BOOLEAN_FALSE then .ok (.bool false, next)
    else if k = BB_BOOLEAN_TRUE then .ok (.bool true, next)
    else if BB_BYTES ≤ k ∧ k < BB_BYTES_LEN_1 then
      if next.length < k - BB_BYTES then .error .corruptedBuffer
      else .ok (.bytes (next.take (k - BB_BYTES)), next.drop (k - BB_BYTES))
    else if k = BB_BYTES_LEN_1 then
      match next with
      | [] => .error .corruptedBuffer
      | k1 :: next2 =>
        if next2.length < k1 + 62 then .error .corruptedBuffer
        else .ok (.bytes (next2.take (k1 + 62)), next2.drop (k1 + 62))
    else if k = BB_BYTES_LEN_2 then
      match next with
      | k1 :: k2 :: next2 =>
        if next2.length < k1 * 256 + k2 + 318 then .error .corruptedBuffer
        else .ok (.bytes (next2.take (k1 * 256 + k2 + 318)),
                  next2.drop (k1 * 256 + k2 + 318))
      | _ => .error .corruptedBuffer
    else if 0xE0 ≤ k ∧ k ≤ 0xE7 then .ok (.int (Int.ofNat (k &&& 7)), next)
    else if 0x68 ≤ k ∧ k ≤ 0x6F then
      .ok (.int (Int.ofNat (k &&& 7) + SMALL_NEG_MASK), next)
    else if k &&& BB_INT_MASK = BB_INT_POSITIVE_VALUE then
      if next.length < (k &&& 7) + 1 then .error .corruptedBuffer
      else .ok (.int (uncompactInt64 (next.take ((k &&& 7) + 1)) true),
                next.drop ((k &&& 7) + 1))
    else if k &&& BB_INT_MASK = BB_INT_NEGATIVE_VALUE then
      if next.length < 8 - (k &&& 7) then .error .corruptedBuffer
      else .ok (.int (uncompactInt64 (next.take (8 - (k &&& 7))) false),
                next.drop (8 - (k &&& 7)))
    else if BB_UINT ≤ k ∧ k ≤ MAX_SMALL_UINT then
      .ok (.uint (k &&& 0x1F), next)
    else if k &&& BB_UINT_MASK = BB_UINT then
      if k &&& 15 = 0 ∨ 8 < k &&& 15 ∨ next.length < k &&& 15 then
        .error .corruptedBuffer
      else .ok (.uint (uncompactUint64 (next.take (k &&& 15))),
                next.drop (k &&& 15))
    else .error .corruptedBuffer

/-- `Decode(b)`: empty-buffer check, then one `decodeBody` step on the
leading tag byte. -/
def Decode (b : List Nat) : Except TBError (Value × List Nat) :=
  match b with
  | [] => .error .emptyBuffer
  | k :: next => decodeBody k next

/-- Equality of decode results is decidable (needed to evaluate `Decode`
on concrete buffers in the theorems below). -/
instance {e a : Type} [DecidableEq e] [DecidableEq a] : DecidableEq (Except e a) :=
  fun x y =>
    match x, y with
    | .ok v, .ok w =>
      if h : v = w then .isTrue (by rw [h])
      else .isFalse (by intro hh; cases hh; exact h rfl)
    | .error v, .error w =>
      if h : v = w then .isTrue (by rw [h])
      else .isFalse (by intro hh; cases hh; exact h rfl)
    | .ok _, .error _ => .isFalse (by intro hh; cases hh)
    | .error _, .ok _ => .isFalse (by intro hh; cases hh)

/-- The loop of `DecodeAll`: repeatedly decode one value, stopping
successfully (with the accumulated values) on `EmptyBufferError` and
propagating any other error, discarding the accumulator.  The Go loop is
unbounded; here it is written with a fuel argument, and a fuel larger
than the buffer length is always sufficient because every successful
`Decode` step consumes at least one byte (`decode_consumes` below).  The
never-taken fuel-0 arm returns the accumulator. -/
def decodeAllAux (fuel : Nat) (acc : List Value) (b : List Nat) :
    Except TBError (List Value) :=
  match fuel with
  | 0 => .ok acc
  | fuel + 1 =>
    match Decode b with
    | .error .emptyBuffer => .ok acc
    | .error e => .error e
    | .ok (v, next) => decodeAllAux fuel (acc ++ [v]) next

/-- `DecodeAll(strings, b)`: decodes the whole buffer into a value list.
The Go `strings` flag only re-labels decoded `[]byte` values as Go
`string`s; both are the byte-string scalar here, so the flag is not
modelled. -/
def DecodeAll (b : List Nat) : Except TBError (List Value) :=
  decodeAllAux (b.length + 1) [] b

/-! ## Comparison orders from the spec

These definitions are statement apparatus only: they transcribe the
orders named by the spec's claims (unsigned lexicographic comparison of
buffers, i.e. Go `bytes.Compare`; length-then-content order on byte
strings; per-category natural order; standard tuple order). -/

/-- Unsigned lexicographic order on byte buffers (`bytes.Compare(a,b) < 0`):
the first differing byte decides; a strict prefix is smaller. -/
def lexLt : List Nat → List Nat → Bool
  | [], [] => false
  | [], _ :: _ => true
  | _ :: _, [] => false
  | x :: xs, y :: ys => if x < y then true else if y < x then false else lexLt xs ys

/-- The spec's order on byte strings: by length, then content. -/
def bytesValueLt (a b : List Nat) : Bool :=
  if a.length < b.length then true
  else if b.length < a.length then false
  else lexLt a b

/-- The spec's natural order within one logical category.  Values of
different categories are incomparable (cross-type order is out of
contract). -/
def valueLt : Value → Value → Bool
  | .bool x, .bool y => !x && y
  | .int x, .int y => decide (x < y)
  | .uint x, .uint y => decide (x < y)
  | .bytes x, .bytes y => bytesValueLt x y
  | _, _ => false

/-- Standard tuple ordering: the first differing position decides. -/
def tupleLt : List Value → List Value → Bool
  | [], [] => false
  | [], _ :: _ => true
  | _ :: _, [] => false
  | x :: xs, y :: ys =>
    if valueLt x y then true else if x = y then tupleLt xs ys else false

/-- Representability of a signed value in `m` big-endian payload bytes
under its sign band's convention (spec wording for the minimality
claim): a non-negative value must lie below `256^m`; a negative value
must be at least `-256^m` (its low `8m` bits then reconstruct it after
the decoder's `-1` sign seeding). -/
def intFits (i : Int) (m : Nat) : Prop :=
  if 0 ≤ i then i < ((256 ^ m : Nat) : Int) else -((256 ^ m : Nat) : Int) ≤ i

instance (i : Int) (m : Nat) : Decidable (intFits i m) := by
  unfold intFits
  infer_instance

/-! ## Claim C10 -/

/-- C10: `Decode` maps both sentinel tags `0x00` (nil-first) and `0xFF`
(nil-last) to the same `absent` value with the tag consumed, so the
first/last distinction is not recoverable from a decoded buffer. -/
theorem c10_nil_decode :
    Decode (EncodeNil true) = .ok (.absent, []) ∧
    Decode (EncodeNil false) = .ok (.absent, []) := by
  decide

/-! ## Claim C1 -/

/-- C1 failing input: the 15-byte string sorts below the 16-byte string
in length-then-content order, but its encoding (tag `0x1F`) sorts above
the 16-byte string's encoding (tag `0x10`, produced by the
`BB_BYTES | byte(l)` bitwise OR losing the `+0x10` offset), so unsigned
lexicographic order of `EncodeBytes` outputs does not preserve the
byte-string order. -/
theorem c1_bytes_order_failure :
    bytesValueLt (List.replicate 15 0) (List.replicate 16 0) = true ∧
    EncodeBytes (List.replicate 15 0) = .ok (0x1F :: List.replicate 15 0) ∧
    EncodeBytes (List.replicate 16 0) = .ok (0x10 :: List.replicate 16 0) ∧
    lexLt (0x1F :: List.replicate 15 0) (0x10 :: List.replicate 16 0) = false ∧
    lexLt (0x10 :: List.replicate 16 0) (0x1F :: List.replicate 15 0) = true := by
  decide

/-! ## Claim C2 -/

/-- C2 failing inputs: a 16-byte string's encoding carries tag `0x10`
(the empty-string tag, from the bitwise-OR slip), so it decodes to the
empty byte string with a 16-byte remainder instead of round-tripping;
and a 61-byte string's encoding (`0x4D 0x00` prefix) fails to decode at
all because the decoder reads the 1-extension-band length as `ext + 62`
while the encoder wrote `length - 61`. -/
theorem c2_roundtrip_failure :
    EncodeBytes (List.replicate 16 7) = .ok (0x10 :: List.replicate 16 7) ∧
    Decode (0x10 :: List.replicate 16 7) = .ok (.bytes [], List.replicate 16 7) ∧
    EncodeBytes (List.replicate 61 7) = .ok (0x4D :: 0 :: List.replicate 61 7) ∧
    Decode (0x4D :: 0 :: List.replicate 61 7) = .error .corruptedBuffer := by
  decide

/-! ## Claim C3 -/

/-- C3 failing input: the singleton tuples holding the 15-byte and
16-byte zero strings.  The tuples compare `<` in standard tuple order,
but their `EncodeNils` buffers compare `>` lexicographically. -/
theorem c3_tuple_order_failure :
    tupleLt [Value.bytes (List.replicate 15 0)] [Value.bytes (List.replicate 16 0)] = true ∧
    EncodeNils true [Value.bytes (List.replicate 15 0)] = .ok (0x1F :: List.replicate 15 0) ∧
    EncodeNils true [Value.bytes (List.replicate 16 0)] = .ok (0x10 :: List.replicate 16 0) ∧
    lexLt (0x1F :: List.replicate 15 0) (0x10 :: List.replicate 16 0) = false := by
  decide

/-! ## Claim C4 -/

/-- C4: the encoder does cross bands exactly at 60/61 and 316/317 (with
the direct-band tag for length 60 being `0x3C`, not `0x4C`, because of
the bitwise-OR slip), but decoding fails to recover the original at all
four lengths: length 60 decodes to a 44-byte value with a 16-byte
remainder, and lengths 61, 316 and 317 all report a corrupted buffer
because the decoder's band lengths are off by one. -/
theorem c4_boundary_failure :
    EncodeBytes (List.replicate 60 1) = .ok (0x3C :: List.replicate 60 1) ∧
    EncodeBytes (List.replicate 61 1) = .ok (0x4D :: 0 :: List.replicate 61 1) ∧
    EncodeBytes (List.replicate 316 1) = .ok (0x4D :: 255 :: List.replicate 316 1) ∧
    EncodeBytes (List.replicate 317 1) = .ok (0x4E :: 0 :: 0 :: List.replicate 317 1) ∧
    Decode (0x3C :: List.replicate 60 1) =
      .ok (.bytes (List.replicate 44 1), List.replicate 16 1) ∧
    Decode (0x4D :: 0 :: List.replicate 61 1) = .error .corruptedBuffer ∧
    Decode (0x4D :: 255 :: List.replicate 316 1) = .error .corruptedBuffer ∧
    Decode (0x4E :: 0 :: 0 :: List.replicate 317 1) = .error .corruptedBuffer := by
  decide

/-! ## Claim C8 -/

/-- C8 counterexample: on an oversize input (longer than the largest
defined band) `EncodeBytes` hits `panic("slice too long")` — modelled by
`EncResult.tooLong` — rather than returning an explicit error value. -/
theorem c8_oversize_counterexample :
    EncodeBytes (List.replicate 4295033147 0) = .tooLong := by
  unfold EncodeBytes
  rw [List.length_replicate]
  rw [if_neg (by norm_num), if_neg (by norm_num), if_neg (by norm_num),
    if_neg (by norm_num)]

/-- C8 (amended): every byte string longer than the largest defined
length band makes `EncodeBytes` trap via `panic("slice too long")`
(`tooLong`), instead of reporting the oversize condition as an explicit
result/error value. -/
theorem c8_oversize_traps (bb : List Nat)
    (h : 65851 + 0xFFFFFFFF < bb.length) : EncodeBytes bb = .tooLong := by
  unfold EncodeBytes
  rw [if_neg, if_neg, if_neg, if_neg] <;> omega

/-- Witness for `c8_oversize_traps` at a concrete oversize length. -/
theorem c8_oversize_traps_witness :
    65851 + 0xFFFFFFFF < (List.replicate 4295033147 (0 : Nat)).length ∧
    EncodeBytes (List.replicate 4295033147 (0 : Nat)) = .tooLong := by
  have h : 65851 + 0xFFFFFFFF < (List.replicate 4295033147 (0 : Nat)).length := by
    rw [List.length_replicate]
    norm_num
  exact ⟨h, c8_oversize_traps _ h⟩

/-! ## Claim C9 (counterexample part) -/

/-- C9 counterexample: the reserved-double tag `0x73` does not yield
`CorruptedBuffer`; it satisfies `k & BB_INT_MASK == BB_INT_NEGATIVE_VALUE`
and decodes as a 5-byte negative integer payload. -/
theorem c9_reserved_double_decodes :
    Decode [0x73, 0, 0, 0, 0, 0] = .ok (.int (-1099511627776), []) ∧
    Decode [0x73, 0, 0, 0, 0, 0] ≠ .error .corruptedBuffer := by
  decide

/-! ## Claim C5 -/

/-- `List.take` on a replicated list. -/
theorem tb_take_replicate (a : Nat) :
    ∀ (n m : Nat), List.take n (List.replicate m a) = List.replicate (min n m) a := by
  intro n
  induction n with
  | zero => intro m; simp
  | succ n ih =>
    intro m
    cases m with
    | zero => simp
    | succ m =>
      rw [List.replicate_succ, List.take_succ_cons, ih,
        Nat.succ_min_succ, List.replicate_succ]

/-- `List.drop` on a replicated list. -/
theorem tb_drop_replicate (a : Nat) :
    ∀ (n m : Nat), List.drop n (List.replicate m a) = List.replicate (m - n) a := by
  intro n
  induction n with
  | zero => intro m; simp
  | succ n ih =>
    intro m
    cases m with
    | zero => simp
    | succ m => rw [List.replicate_succ, List.drop_succ_cons, ih, Nat.succ_sub_succ]

/-- Shape of `Decode` on a buffer whose tag is `BB_BYTES_LEN_2 = 0x4E`:
the decoder always reads two length-extension bytes and
`k1*256 + k2 + 318` payload bytes. -/
theorem decode_len2_shape (k1 k2 : Nat) (rest : List Nat) :
    Decode (0x4E :: k1 :: k2 :: rest) =
      if rest.length < k1 * 256 + k2 + 318 then .error .corruptedBuffer
      else .ok (.bytes (rest.take (k1 * 256 + k2 + 318)),
                rest.drop (k1 * 256 + k2 + 318)) := by
  simp [Decode, decodeBody, BB_NIL_FIRST, BB_NIL_LAST, BB_BOOLEAN_FALSE,
    BB_BOOLEAN_TRUE, BB_BYTES, BB_BYTES_LEN_1, BB_BYTES_LEN_2]

/-- C5: a byte string one past the 2-extension-band cap (length 65853)
is encoded in the 4-extension band, but with the colliding tag `0x4E`;
decoding that buffer does not fail — it succeeds and returns a wrong
318-byte value plus a remainder, because the decoder parses the first
two of the four length-extension bytes as a 2-extension-band length. -/
theorem c5_band4_misdecode :
    EncodeBytes (List.replicate 65853 0) =
      .ok (0x4E :: 0 :: 0 :: 0 :: 2 :: List.replicate 65853 0) ∧
    Decode (0x4E :: 0 :: 0 :: 0 :: 2 :: List.replicate 65853 0) =
      .ok (.bytes (0 :: 2 :: List.replicate 316 0), List.replicate 65537 0) := by
  constructor
  · unfold EncodeBytes
    rw [List.length_replicate]
    rw [if_neg (by norm_num), if_neg (by norm_num), if_neg (by norm_num),
      if_pos (by norm_num)]
    rfl
  · rw [show (0x4E :: 0 :: 0 :: 0 :: 2 :: List.replicate 65853 0 : List Nat)
        = 0x4E :: 0 :: 0 :: (0 :: 2 :: List.replicate 65853 0) from rfl,
      decode_len2_shape]
    rw [if_neg (by
      rw [List.length_cons, List.length_cons, List.length_replicate]
      norm_num)]
    rw [show (0 * 256 + 0 + 318 : Nat) = 317 + 1 from rfl]
    rw [List.take_succ_cons, List.drop_succ_cons,
      show (317 : Nat) = 316 + 1 from rfl,
      List.take_succ_cons, List.drop_succ_cons,
      tb_take_replicate, tb_drop_replicate]
    rfl

/-! ## Claim C9 (amended theorem) -/

theorem decode_cases (k : Nat) (next : List Nat) :
    (∃ v rest, decodeBody k next = .ok (v, rest) ∧ rest.length ≤ next.length) ∨
    decodeBody k next = .error .corruptedBuffer := by
  unfold decodeBody
  by_cases h1 : k = BB_NIL_FIRST ∨ k = BB_NIL_LAST
  · exact Or.inl ⟨_, _, if_pos h1, Nat.le_refl _⟩
  rw [if_neg h1]
  by_cases h2 : k = BB_BOOLEAN_FALSE
  · exact Or.inl ⟨_, _, if_pos h2, Nat.le_refl _⟩
  rw [if_neg h2]
  by_cases h3 : k = BB_BOOLEAN_TRUE
  · exact Or.inl ⟨_, _, if_pos h3, Nat.le_refl _⟩
  rw [if_neg h3]
  by_cases h4 : BB_BYTES ≤ k ∧ k < BB_BYTES_LEN_1
  · rw [if_pos h4]
    by_cases h4a : next.length < k - BB_BYTES
    · exact Or.inr (if_pos h4a)
    · exact Or.inl ⟨_, _, if_neg h4a, by rw [List.length_drop]; omega⟩
  rw [if_neg h4]
  by_cases h5 : k = BB_BYTES_LEN_1
  · rw [if_pos h5]
    cases next with
    | nil => exact Or.inr rfl
    | cons k1 next2 =>
      by_cases h5a : next2.length < k1 + 62
      · exact Or.inr (if_pos h5a)
      · exact Or.inl ⟨_, _, if_neg h5a,
          by rw [List.length_drop, List.length_cons]; omega⟩
  rw [if_neg h5]
  by_cases h6 : k = BB_BYTES_LEN_2
  · rw [if_pos h6]
    cases next with
    | nil => exact Or.inr rfl
    | cons k1 next2 =>
      cases next2 with
      | nil => exact Or.inr rfl
      | cons k2 next3 =>
        by_cases h6a : next3.length < k1 * 256 + k2 + 318
        · exact Or.inr (if_pos h6a)
        · exact Or.inl ⟨_, _, if_neg h6a,
            by rw [List.length_drop, List.length_cons, List.length_cons]; omega⟩
  rw [if_neg h6]
  by_cases h7 : 0xE0 ≤ k ∧ k ≤ 0xE7
  · exact Or.inl ⟨_, _, if_pos h7, Nat.le_refl _⟩
  rw [if_neg h7]
  by_cases h8 : 0x68 ≤ k ∧ k ≤ 0x6F
  · exact Or.inl ⟨_, _, if_pos h8, Nat.le_refl _⟩
  rw [if_neg h8]
  by_cases h9 : k &&& BB_INT_MASK = BB_INT_POSITIVE_VALUE
  · rw [if_pos h9]
    by_cases h9a : next.length < (k &&& 7) + 1
    · exact Or.inr (if_pos h9a)
    · exact Or.inl ⟨_, _, if_neg h9a, by rw [List.length_drop]; omega⟩
  rw [if_neg h9]
  by_cases h10 : k &&& BB_INT_MASK = BB_INT_NEGATIVE_VALUE
  · rw [if_pos h10]
    by_cases h10a : next.length < 8 - (k &&& 7)
    · exact Or.inr (if_pos h10a)
    · exact Or.inl ⟨_, _, if_neg h10a, by rw [List.length_drop]; omega⟩
  rw [if_neg h10]
  by_cases h11 : BB_UINT ≤ k ∧ k ≤ MAX_SMALL_UINT
  · exact Or.inl ⟨_, _, if_pos h11, Nat.le_refl _⟩
  rw [if_neg h11]
  by_cases h12 : k &&& BB_UINT_MASK = BB_UINT
  · rw [if_pos h12]
    by_cases h12a : k &&& 15 = 0 ∨ 8 < k &&& 15 ∨ next.length < k &&& 15
    · exact Or.inr (if_pos h12a)
    · exact Or.inl ⟨_, _, if_neg h12a, by rw [List.length_drop]; omega⟩
  rw [if_neg h12]
  exact Or.inr rfl

/-- A successful decode step strictly consumes input. -/
theorem decode_consumes (b : List Nat) (v : Value) (rest : List Nat)
    (h : Decode b = .ok (v, rest)) : rest.length < b.length := by
  cases b with
  | nil => simp [Decode] at h
  | cons k next =>
    have hb : decodeBody k next = .ok (v, rest) := h
    rcases decode_cases k next with ⟨v2, r2, heq, hle⟩ | heq
    · rw [heq] at hb
      cases hb
      rw [List.length_cons]
      omega
    · rw [heq] at hb
      cases hb

/-- `EmptyBuffer` is reported exactly on the empty buffer. -/
theorem decode_empty_iff (b : List Nat) :
    Decode b = .error .emptyBuffer ↔ b = [] := by
  cases b with
  | nil => simp [Decode]
  | cons k next =>
    simp only [Decode]
    constructor
    · intro h
      rcases decode_cases k next with ⟨v, r, heq, _⟩ | heq <;> rw [heq] at h <;> cases h
    · intro h
      cases h

/-- C9 (amended): `Decode` is total — `EmptyBuffer` exactly on the empty
buffer, and on any non-empty buffer it returns a value with remainder or
`CorruptedBuffer`.  The reserved date tags `0x50`-`0x5F`, the tag `0x4F`
and the tags `0xF0`-`0xF7` always classify as `CorruptedBuffer`; but the
reserved double tags `0x70`-`0x73` match the negative-integer mask and
are parsed as negative-band integer payloads: with `8 - (k&7)` payload
bytes available the result is exactly `uncompactInt64` of those bytes
with the `-1` seed (for tag `0x70` all 8 seed bytes wrap out of the
int64, so the decoded value can be zero or positive, e.g.
`[0x70, 0×8]` decodes to `0`), and `CorruptedBuffer` is reported only on
a shorter buffer. -/
theorem c9_decode_totality :
    (∀ b : List Nat, Decode b = .error .emptyBuffer ↔ b = []) ∧
    (∀ b : List Nat, b ≠ [] →
      (∃ v rest, Decode b = .ok (v, rest)) ∨
      Decode b = .error .corruptedBuffer) ∧
    (∀ (k : Nat) (next : List Nat),
      (0x50 ≤ k ∧ k ≤ 0x5F) ∨ k = 0x4F ∨ (0xF0 ≤ k ∧ k ≤ 0xF7) →
      Decode (k :: next) = .error .corruptedBuffer) ∧
    (∀ (k : Nat) (next : List Nat), 0x70 ≤ k → k ≤ 0x73 →
      (8 - (k &&& 7) ≤ next.length →
        Decode (k :: next) =
          .ok (.int (uncompactInt64 (next.take (8 - (k &&& 7))) false),
               next.drop (8 - (k &&& 7)))) ∧
      (next.length < 8 - (k &&& 7) →
        Decode (k :: next) = .error .corruptedBuffer)) := by
  refine ⟨decode_empty_iff, ?_, ?_, ?_⟩
  · intro b hb
    cases b with
    | nil => exact absurd rfl hb
    | cons k next =>
      rcases decode_cases k next with ⟨v, r, heq, _⟩ | heq
      · exact Or.inl ⟨v, r, heq⟩
      · exact Or.inr heq
  · intro k next h
    rcases h with ⟨ha, hb⟩ | h | ⟨ha, hb⟩
    · interval_cases k <;> rfl
    · subst h; rfl
    · interval_cases k <;> rfl
  · intro k next h1 h2
    interval_cases k
    all_goals
      refine ⟨fun hlen => if_neg (by omega), fun hlt => if_pos hlt⟩

/-- Witness for `c9_decode_totality` at concrete tags and buffers. -/
theorem c9_decode_totality_witness :
    Decode [0x50] = .error .corruptedBuffer ∧
    Decode [0x73, 0, 0, 0, 0, 0] =
      .ok (.int (uncompactInt64
            (List.take (8 - (0x73 &&& 7)) [0, 0, 0, 0, 0]) false),
           List.drop (8 - (0x73 &&& 7)) [0, 0, 0, 0, 0]) ∧
    Decode [0x70] = .error .corruptedBuffer :=
  ⟨c9_decode_totality.2.2.1 0x50 [] (Or.inl (by decide)),
   (c9_decode_totality.2.2.2 0x73 [0, 0, 0, 0, 0] (by decide) (by decide)).1
     (by decide),
   (c9_decode_totality.2.2.2 0x70 [] (by decide) (by decide)).2 (by decide)⟩

/-! ## Claim C7 -/

/-- The fuel does not matter as long as it exceeds the buffer length. -/
theorem decodeAllAux_congr : ∀ (f1 f2 : Nat) (acc : List Value) (b : List Nat),
    b.length < f1 → b.length < f2 →
    decodeAllAux f1 acc b = decodeAllAux f2 acc b := by
  intro f1
  induction f1 with
  | zero => intro f2 acc b h1 h2; omega
  | succ g1 ih =>
    intro f2 acc b h1 h2
    cases f2 with
    | zero => omega
    | succ g2 =>
      simp only [decodeAllAux]
      cases hd : Decode b with
      | error e => cases e <;> rfl
      | ok p =>
        obtain ⟨v, next⟩ := p
        have hc := decode_consumes b v next hd
        exact ih g2 (acc ++ [v]) next (by omega) (by omega)

/-- C7: the `DecodeAll` loop, from any state (accumulator `acc`, buffer
`b`), terminates successfully with exactly the values decoded so far
precisely when the single-step decoder reports `EmptyBuffer`; any other
single-step error is returned immediately, discarding the accumulated
partial results; and on a successful step the loop continues with the
value appended.  `DecodeAll` itself is the loop started on the empty
accumulator. -/
theorem c7_decodeall_loop :
    (∀ (acc : List Value) (b : List Nat),
      Decode b = .error .emptyBuffer →
      decodeAllAux (b.length + 1) acc b = .ok acc) ∧
    (∀ (acc : List Value) (b : List Nat) (e : TBError),
      Decode b = .error e → e ≠ .emptyBuffer →
      decodeAllAux (b.length + 1) acc b = .error e) ∧
    (∀ (acc : List Value) (b : List Nat) (v : Value) (next : List Nat),
      Decode b = .ok (v, next) →
      decodeAllAux (b.length + 1) acc b =
        decodeAllAux (next.length + 1) (acc ++ [v]) next) ∧
    (∀ b : List Nat, DecodeAll b = decodeAllAux (b.length + 1) [] b) := by
  refine ⟨?_, ?_, ?_, fun b => rfl⟩
  · intro acc b h
    simp only [decodeAllAux, h]
  · intro acc b e h hne
    cases e with
    | emptyBuffer => exact absurd rfl hne
    | corruptedBuffer => simp only [decodeAllAux, h]
  · intro acc b v next h
    have hc := decode_consumes b v next h
    simp only [decodeAllAux, h]
    exact decodeAllAux_congr b.length (next.length + 1) (acc ++ [v]) next
      (by omega) (by omega)

/-- Witness for `c7_decodeall_loop` at concrete loop states. -/
theorem c7_decodeall_loop_witness :
    decodeAllAux (([] : List Nat).length + 1) [Value.uint 3] [] = .ok [Value.uint 3] ∧
    decodeAllAux (([0x4F] : List Nat).length + 1) [Value.uint 3] [0x4F] =
      .error .corruptedBuffer ∧
    decodeAllAux (([0x0F] : List Nat).length + 1) [] [0x0F] =
      decodeAllAux (([] : List Nat).length + 1) [Value.bool true] [] :=
  ⟨c7_decodeall_loop.1 [Value.uint 3] [] rfl,
   c7_decodeall_loop.2.1 [Value.uint 3] [0x4F] .corruptedBuffer rfl (by decide),
   c7_decodeall_loop.2.2.1 [] [0x0F] (.bool true) [] rfl⟩

/-! ## Claim C6: loop lemmas -/

theorem bytesDown_length (v : Nat) : ∀ m, (bytesDown v m).length = m + 1 := by
  intro m
  induction m with
  | zero => rfl
  | succ m ih => simp [bytesDown, ih]

theorem shiftRight_eq_zero_iff (v n : Nat) : v >>> n = 0 ↔ v < 2 ^ n := by
  rw [Nat.shiftRight_eq_div_pow]
  constructor
  · intro h
    have hdm := Nat.div_add_mod v (2 ^ n)
    rw [h, Nat.mul_zero, Nat.zero_add] at hdm
    have hm : v % 2 ^ n < 2 ^ n := Nat.mod_lt _ (Nat.two_pow_pos n)
    omega
  · intro h
    exact Nat.div_eq_of_lt h

theorem and255_eq_mod (x : Nat) : x &&& 255 = x % 256 := by
  have h := Nat.and_pow_two_sub_one_eq_mod x 8
  norm_num at h
  exact h

theorem posLoopBytes_le (v : Nat) : ∀ k, posLoopBytes v k ≤ k := by
  intro k
  induction k with
  | zero => exact Nat.le_refl _
  | succ k ih =>
    simp only [posLoopBytes]
    split
    · exact Nat.le_refl _
    · exact Nat.le_succ_of_le ih

theorem posLoopBytes_upper (v : Nat) :
    ∀ k, v < 2 ^ (8 * (k + 1)) → v < 2 ^ (8 * (posLoopBytes v k + 1)) := by
  intro k
  induction k with
  | zero => exact fun h => h
  | succ k ih =>
    intro h
    simp only [posLoopBytes]
    split
    · exact h
    · next hz =>
      have hz2 : v >>> (8 * (k + 1)) = 0 := by omega
      exact ih ((shiftRight_eq_zero_iff v (8 * (k + 1))).mp hz2)

theorem posLoopBytes_lower (v : Nat) :
    ∀ k, posLoopBytes v k ≠ 0 → 2 ^ (8 * posLoopBytes v k) ≤ v := by
  intro k
  induction k with
  | zero => intro h; exact absurd rfl h
  | succ k ih =>
    intro h
    simp only [posLoopBytes] at h ⊢
    split
    · next hz =>
      have : ¬ v < 2 ^ (8 * (k + 1)) := fun hc =>
        hz ((shiftRight_eq_zero_iff v (8 * (k + 1))).mpr hc)
      omega
    · next hz =>
      rw [if_neg hz] at h
      exact ih h

theorem negLoopBytes_le (v : Nat) : ∀ k, negLoopBytes v k ≤ k := by
  intro k
  induction k with
  | zero => exact Nat.le_refl _
  | succ k ih =>
    simp only [negLoopBytes]
    split
    · exact Nat.le_refl _
    · exact Nat.le_succ_of_le ih

theorem negLoopBytes_upper (v : Nat) :
    ∀ k, 8 * (k + 1) ≤ 64 →
    v >>> (8 * (k + 1)) = 2 ^ (64 - 8 * (k + 1)) - 1 →
    v >>> (8 * (negLoopBytes v k + 1)) = 2 ^ (64 - 8 * (negLoopBytes v k + 1)) - 1 := by
  intro k
  induction k with
  | zero => exact fun _ h => h
  | succ k ih =>
    intro hle h
    simp only [negLoopBytes]
    split
    · exact h
    · next hb =>
      have hb2 : (v >>> (8 * (k + 1))) &&& 255 = 255 := by omega
      refine ih (by omega) ?_
      have hs : v >>> (8 * (k + 1 + 1)) = (v >>> (8 * (k + 1))) >>> 8 := by
        rw [← Nat.shiftRight_add]
        congr 1
      have hsplit : ∀ x : Nat, x = 256 * (x >>> 8) + x % 256 := by
        intro x
        have h256 : (2 : Nat) ^ 8 = 256 := by norm_num
        rw [Nat.shiftRight_eq_div_pow, h256]
        omega
      have hx := hsplit (v >>> (8 * (k + 1)))
      rw [← and255_eq_mod, hb2] at hx
      rw [hs] at h
      have hpow : 2 ^ (64 - 8 * (k + 1)) = 256 * 2 ^ (64 - 8 * (k + 1 + 1)) := by
        rw [show 64 - 8 * (k + 1) = (64 - 8 * (k + 1 + 1)) + 8 from by omega,
          pow_add]
        ring
      have hC : 1 ≤ 2 ^ (64 - 8 * (k + 1 + 1)) := Nat.one_le_two_pow
      omega

theorem negLoopBytes_lower (v : Nat) :
    ∀ k, negLoopBytes v k ≠ 0 → (v >>> (8 * negLoopBytes v k)) &&& 255 ≠ 255 := by
  intro k
  induction k with
  | zero => intro h; exact absurd rfl h
  | succ k ih =>
    intro h
    simp only [negLoopBytes] at h ⊢
    split
    · next hb => exact hb
    · next hb =>
      rw [if_neg hb] at h
      exact ih h

/-! ## Claim C6: band packages -/

theorem pow256_eq (n : Nat) : (256 : Nat) ^ n = 2 ^ (8 * n) := by
  rw [show (256 : Nat) = 2 ^ 8 from by norm_num, ← pow_mul]

/-- The positive scan picks a byte count whose band contains `v`, and no
smaller positive byte count does. -/
theorem compact_pos_spec (v : Nat) (hv : v < 2 ^ 64) :
    v < 256 ^ (posLoopBytes v 7 + 1) ∧
    (∀ j, 1 ≤ j → j < posLoopBytes v 7 + 1 → ¬ v < 256 ^ j) ∧
    posLoopBytes v 7 ≤ 7 := by
  have hv8 : v < 2 ^ (8 * (7 + 1)) := by
    rw [show 8 * (7 + 1) = 64 from by norm_num]
    exact hv
  refine ⟨?_, ?_, posLoopBytes_le v 7⟩
  · rw [pow256_eq]
    exact posLoopBytes_upper v 7 hv8
  · intro j hj1 hj2
    have hm : posLoopBytes v 7 ≠ 0 := by omega
    have hlow := posLoopBytes_lower v 7 hm
    intro hc
    rw [pow256_eq] at hc
    have hmono : 2 ^ (8 * j) ≤ 2 ^ (8 * posLoopBytes v 7) :=
      Nat.pow_le_pow_right (by norm_num) (by omega)
    omega

/-- The negative scan picks a byte count whose band contains `v` (all
bytes above it are `0xFF`), and no smaller positive byte count does. -/
theorem compact_neg_spec (v : Nat) (hv : v < 2 ^ 64) :
    2 ^ 64 - 2 ^ (8 * (negLoopBytes v 7 + 1)) ≤ v ∧
    (∀ j, 1 ≤ j → j ≤ negLoopBytes v 7 → v < 2 ^ 64 - 2 ^ (8 * j)) ∧
    negLoopBytes v 7 ≤ 7 := by
  have hle := negLoopBytes_le v 7
  have hexp : ∀ e : Nat, e ≤ 64 → (2 ^ (64 - e) - 1) * 2 ^ e = 2 ^ 64 - 2 ^ e := by
    intro e he
    rw [Nat.sub_mul, Nat.one_mul, ← pow_add]
    congr 2
    omega
  refine ⟨?_, ?_, hle⟩
  · have h0 : v >>> (8 * (7 + 1)) = 2 ^ (64 - 8 * (7 + 1)) - 1 := by
      rw [show 8 * (7 + 1) = 64 from by norm_num,
        (shiftRight_eq_zero_iff v 64).mpr hv]
      norm_num
    have hu := negLoopBytes_upper v 7 (by norm_num) h0
    rw [Nat.shiftRight_eq_div_pow] at hu
    have hd : (v / 2 ^ (8 * (negLoopBytes v 7 + 1))) *
        2 ^ (8 * (negLoopBytes v 7 + 1)) ≤ v := Nat.div_mul_le_self v _
    rw [hu, hexp (8 * (negLoopBytes v 7 + 1)) (by omega)] at hd
    exact hd
  · intro j hj1 hj2
    have hm0 : negLoopBytes v 7 ≠ 0 := by omega
    have hlow := negLoopBytes_lower v 7 hm0
    by_contra hc
    rw [Nat.not_lt] at hc
    have hpj : 2 ^ (8 * j) ≤ 2 ^ (8 * negLoopBytes v 7) :=
      Nat.pow_le_pow_right (by norm_num) (by omega)
    have hcm : 2 ^ 64 - 2 ^ (8 * negLoopBytes v 7) ≤ v := by omega
    have hpos : 0 < 2 ^ (8 * negLoopBytes v 7) := Nat.two_pow_pos _
    have hup : v / 2 ^ (8 * negLoopBytes v 7) < 2 ^ (64 - 8 * negLoopBytes v 7) := by
      rw [Nat.div_lt_iff_lt_mul hpos, ← pow_add]
      calc v < 2 ^ 64 := hv
        _ ≤ 2 ^ (64 - 8 * negLoopBytes v 7 + 8 * negLoopBytes v 7) :=
          Nat.pow_le_pow_right (by norm_num) (by omega)
    have hlo : 2 ^ (64 - 8 * negLoopBytes v 7) - 1 ≤ v / 2 ^ (8 * negLoopBytes v 7) := by
      rw [Nat.le_div_iff_mul_le hpos,
        hexp (8 * negLoopBytes v 7) (by omega)]
      exact hcm
    have heq : v / 2 ^ (8 * negLoopBytes v 7) = 2 ^ (64 - 8 * negLoopBytes v 7) - 1 := by
      omega
    have hbyte : (v >>> (8 * negLoopBytes v 7)) &&& 255 = 255 := by
      rw [Nat.shiftRight_eq_div_pow, heq, and255_eq_mod]
      have hsplit : 2 ^ (64 - 8 * negLoopBytes v 7) =
          256 * 2 ^ (56 - 8 * negLoopBytes v 7) := by
        rw [show 64 - 8 * negLoopBytes v 7 = (56 - 8 * negLoopBytes v 7) + 8
          from by omega, pow_add]
        ring
      have h1 : 1 ≤ 2 ^ (56 - 8 * negLoopBytes v 7) := Nat.one_le_two_pow
      omega
    exact hlow hbyte

/-! ## Claim C6: assembly -/

theorem toUInt64_lt (i : Int) : toUInt64 i < 18446744073709551616 := by
  unfold toUInt64
  have h1 : 0 ≤ i % 18446744073709551616 := Int.emod_nonneg i (by norm_num)
  have h2 : i % 18446744073709551616 < 18446744073709551616 :=
    Int.emod_lt_of_pos i (by norm_num)
  omega

theorem toUInt64_of_nonneg (i : Int) (h0 : 0 ≤ i)
    (h1 : i < 18446744073709551616) : ((toUInt64 i : Nat) : Int) = i := by
  unfold toUInt64
  rw [Int.emod_eq_of_lt h0 h1]
  omega

theorem toUInt64_of_neg (i : Int) (h0 : -18446744073709551616 ≤ i) (h1 : i < 0) :
    ((toUInt64 i : Nat) : Int) = i + 18446744073709551616 := by
  unfold toUInt64
  have hshift : i % 18446744073709551616 =
      (i + 18446744073709551616) % 18446744073709551616 := by
    rw [show i + 18446744073709551616 = i + 18446744073709551616 * 1 from by
      ring, Int.add_mul_emod_self_left]
  rw [hshift, Int.emod_eq_of_lt (by omega) (by omega)]
  omega

theorem encodeInt64_pos_shape (i : Int) (h : 7 < i) :
    EncodeInt64 i =
      ((BB_INT_POSITIVE_VALUE + posLoopBytes (toUInt64 i) 7) % 256) ::
        bytesDown (toUInt64 i) (posLoopBytes (toUInt64 i) 7) := by
  unfold EncodeInt64 compactInt64
  rw [if_neg (by omega), if_pos h, if_neg (by decide)]

theorem encodeInt64_neg_shape (i : Int) (h : i < -8) :
    EncodeInt64 i =
      ((BB_INT_NEGATIVE_VALUE + (7 - negLoopBytes (toUInt64 i) 7)) % 256) ::
        bytesDown (toUInt64 i) (negLoopBytes (toUInt64 i) 7) := by
  unfold EncodeInt64 compactInt64
  rw [if_pos h, if_pos (by decide)]

theorem encodeUint64_shape (u : Nat) (h : 16 < u) :
    EncodeUint64 u =
      ((BB_UINT_VAR + posLoopBytes u 7 + 1) % 256) ::
        bytesDown u (posLoopBytes u 7) := by
  unfold EncodeUint64 compactUint64
  rw [if_neg (by omega)]

/-- C6 helper, positive signed case. -/
theorem int_minimality_pos (i : Int) (h7 : 7 < i)
    (hhi : i < 9223372036854775808) :
    1 ≤ (EncodeInt64 i).length - 1 ∧ (EncodeInt64 i).length - 1 ≤ 8 ∧
    intFits i ((EncodeInt64 i).length - 1) ∧
    (∀ m : Nat, 1 ≤ m → m < (EncodeInt64 i).length - 1 → ¬ intFits i m) := by
  have hv64 : toUInt64 i < 2 ^ 64 := by
    have := toUInt64_lt i
    norm_num
    omega
  obtain ⟨hfit, hmin, hm7⟩ := compact_pos_spec (toUInt64 i) hv64
  have hcast : ((toUInt64 i : Nat) : Int) = i :=
    toUInt64_of_nonneg i (by omega) (by omega)
  have hlen : (EncodeInt64 i).length - 1 = posLoopBytes (toUInt64 i) 7 + 1 := by
    rw [encodeInt64_pos_shape i h7, List.length_cons, bytesDown_length]
    omega
  rw [hlen]
  refine ⟨by omega, by omega, ?_, ?_⟩
  · unfold intFits
    rw [if_pos (by omega)]
    have hfit2 : ((toUInt64 i : Nat) : Int) <
        ((256 ^ (posLoopBytes (toUInt64 i) 7 + 1) : Nat) : Int) := by
      exact_mod_cast hfit
    rw [hcast] at hfit2
    exact hfit2
  · intro m hm1 hm2
    unfold intFits
    rw [if_pos (by omega)]
    intro hc
    rw [← hcast] at hc
    exact hmin m hm1 hm2 (by exact_mod_cast hc)

/-- C6 helper, negative signed case. -/
theorem int_minimality_neg (i : Int) (h8 : i < -8)
    (hlo : -9223372036854775808 ≤ i) :
    1 ≤ (EncodeInt64 i).length - 1 ∧ (EncodeInt64 i).length - 1 ≤ 8 ∧
    intFits i ((EncodeInt64 i).length - 1) ∧
    (∀ m : Nat, 1 ≤ m → m < (EncodeInt64 i).length - 1 → ¬ intFits i m) := by
  have hv64 : toUInt64 i < 2 ^ 64 := by
    have := toUInt64_lt i
    norm_num
    omega
  obtain ⟨hfit, hmin, hm7⟩ := compact_neg_spec (toUInt64 i) hv64
  have hcast : ((toUInt64 i : Nat) : Int) = i + 18446744073709551616 :=
    toUInt64_of_neg i (by omega) (by omega)
  have hlen : (EncodeInt64 i).length - 1 = negLoopBytes (toUInt64 i) 7 + 1 := by
    rw [encodeInt64_neg_shape i h8, List.length_cons, bytesDown_length]
    omega
  rw [hlen]
  have hpowle : ∀ e : Nat, e ≤ 64 → (2 : Nat) ^ e ≤ 2 ^ 64 :=
    fun e he => Nat.pow_le_pow_right (by norm_num) he
  refine ⟨by omega, by omega, ?_, ?_⟩
  · unfold intFits
    rw [if_neg (by omega), pow256_eq]
    have hsub :
        ((2 ^ 64 - 2 ^ (8 * (negLoopBytes (toUInt64 i) 7 + 1)) : Nat) : Int) ≤
          ((toUInt64 i : Nat) : Int) := by exact_mod_cast hfit
    rw [Nat.cast_sub (hpowle _ (by omega)), hcast] at hsub
    have h64 : (((2 : Nat) ^ 64 : Nat) : Int) = 18446744073709551616 := by
      norm_num
    rw [h64] at hsub
    omega
  · intro m hm1 hm2
    unfold intFits
    rw [if_neg (by omega), pow256_eq]
    have := hmin m hm1 (by omega)
    have hsub : ((toUInt64 i : Nat) : Int) <
        ((2 ^ 64 - 2 ^ (8 * m) : Nat) : Int) := by exact_mod_cast this
    rw [Nat.cast_sub (hpowle _ (by omega)), hcast] at hsub
    have h64 : (((2 : Nat) ^ 64 : Nat) : Int) = 18446744073709551616 := by
      norm_num
    rw [h64] at hsub
    omega

/-- C6 helper, unsigned case. -/
theorem uint_minimality (u : Nat) (h16 : 16 < u)
    (hhi : u < 18446744073709551616) :
    1 ≤ (EncodeUint64 u).length - 1 ∧ (EncodeUint64 u).length - 1 ≤ 8 ∧
    u < 256 ^ ((EncodeUint64 u).length - 1) ∧
    (∀ m : Nat, 1 ≤ m → m < (EncodeUint64 u).length - 1 → ¬ u < 256 ^ m) := by
  have hv64 : u < 2 ^ 64 := by norm_num; omega
  obtain ⟨hfit, hmin, hm7⟩ := compact_pos_spec u hv64
  have hlen : (EncodeUint64 u).length - 1 = posLoopBytes u 7 + 1 := by
    rw [encodeUint64_shape u h16, List.length_cons, bytesDown_length]
    omega
  rw [hlen]
  exact ⟨by omega, by omega, hfit, hmin⟩

/-- C6: outside the small-literal bands, the payload of `EncodeInt64 i`
(everything after the tag byte) has the smallest byte count `n` in
`1..8` such that `i` is representable in `n` big-endian payload bytes
under its sign band's convention; the same minimality holds for
`EncodeUint64` outside `0..16`. -/
theorem c6_minimality :
    (∀ i : Int, -9223372036854775808 ≤ i → i < 9223372036854775808 →
      (i < -8 ∨ 7 < i) →
      1 ≤ (EncodeInt64 i).length - 1 ∧ (EncodeInt64 i).length - 1 ≤ 8 ∧
      intFits i ((EncodeInt64 i).length - 1) ∧
      (∀ m : Nat, 1 ≤ m → m < (EncodeInt64 i).length - 1 → ¬ intFits i m)) ∧
    (∀ u : Nat, u < 18446744073709551616 → 16 < u →
      1 ≤ (EncodeUint64 u).length - 1 ∧ (EncodeUint64 u).length - 1 ≤ 8 ∧
      u < 256 ^ ((EncodeUint64 u).length - 1) ∧
      (∀ m : Nat, 1 ≤ m → m < (EncodeUint64 u).length - 1 → ¬ u < 256 ^ m)) := by
  constructor
  · intro i hlo hhi hout
    rcases hout with h8 | h7
    · exact int_minimality_neg i h8 hlo
    · exact int_minimality_pos i h7 hhi
  · intro u hhi h16
    exact uint_minimality u h16 hhi

/-- Witness for `c6_minimality` at `i = 1000`, `i = -1000`, `u = 255`. -/
theorem c6_minimality_witness :
    (1 ≤ (EncodeInt64 1000).length - 1 ∧ (EncodeInt64 1000).length - 1 ≤ 8 ∧
      intFits 1000 ((EncodeInt64 1000).length - 1) ∧
      (∀ m : Nat, 1 ≤ m → m < (EncodeInt64 1000).length - 1 →
        ¬ intFits 1000 m)) ∧
    (1 ≤ (EncodeInt64 (-1000)).length - 1 ∧
      (EncodeInt64 (-1000)).length - 1 ≤ 8 ∧
      intFits (-1000) ((EncodeInt64 (-1000)).length - 1) ∧
      (∀ m : Nat, 1 ≤ m → m < (EncodeInt64 (-1000)).length - 1 →
        ¬ intFits (-1000) m)) ∧
    (1 ≤ (EncodeUint64 255).length - 1 ∧ (EncodeUint64 255).length - 1 ≤ 8 ∧
      255 < 256 ^ ((EncodeUint64 255).length - 1) ∧
      (∀ m : Nat, 1 ≤ m → m < (EncodeUint64 255).length - 1 →
        ¬ 255 < 256 ^ m)) :=
  ⟨c6_minimality.1 1000 (by decide) (by decide) (by decide),
   c6_minimality.1 (-1000) (by decide) (by decide) (by decide),
   c6_minimality.2 255 (by decide) (by decide)⟩

end Typedbuffer
